import Mathlib

/-!
Verification of the delegation decision logic of the AI-delegation repository
(packages `security`, `market`, `delegation`, `types`).

Shallow embedding conventions:
* Go `float64` quantities (scores, budgets, trust values) are modelled as `ℚ`;
  every comparison exercised here is exact in both models.
* Time instants are modelled as `ℚ` (`time.Time`); durations are rationals in
  the same unit.  Each operation of the code receives a single `now` parameter
  standing for the `time.Now()` reads it performs (the spec's §9 injectable
  clock); within one operation all reads return that instant.
* The external natsclient backend (store / channels / relation registry) is
  modelled on its success path: `Post`/`EntityRegister`/`InitChannel` succeed,
  a store is a latest-write-wins association list keyed like the Go code keys
  its records.  Backend failures are propagated errors in Go and are outside
  the claims checked here.
* Fallible Go functions returning `(T, error)` become `Except String T`.
-/

/- Batteries marks the rational operations irreducible, which blocks kernel
evaluation of concrete states; restore the default reducibility so that
closed runs of the embedded code can be settled by `decide`. -/
attribute [local semireducible] Rat.mul Rat.add Rat.sub Rat.inv

namespace Deleg

/-! ## Go string helpers

`strings.Contains` and `strings.HasPrefix` from the Go standard library,
transcribed over `List Char`. `strSub sub s` holds iff `sub` occurs as a
contiguous substring of `s` (so `strings.Contains s sub = strSub sub.data
s.data`); the empty string is a substring of everything, as in Go. -/

/-- Character-list prefix test (`strings.HasPrefix s pfx = strPre pfx.data s.data`). -/
def strPre : List Char → List Char → Bool
  | [], _ => true
  | _ :: _, [] => false
  | a :: t1, b :: t2 => a == b && strPre t1 t2

/-- Character-list substring test, Go `strings.Contains` semantics. -/
def strSub (t : List Char) : List Char → Bool
  | [] => strPre t []
  | c :: rest => strPre t (c :: rest) || strSub t rest

/-- Go `strings.Contains s sub`. -/
def goContains (s sub : String) : Bool := strSub sub.data s.data

/-- Go `strings.HasPrefix s pfx`. -/
def goHasPre (s pfx : String) : Bool := strPre pfx.data s.data

/-! ## Delegation Capability Tokens (src/security.go) -/

/-- Caveat is a single restriction in the attenuation chain (src/security.go).
The Go field `Type` is named `kind` here because `Type` is reserved in Lean;
values are "scope", "operation", "time", "budget". -/
structure Caveat where
  kind : String
  key : String
  value : String
  deriving DecidableEq, Repr

/-- DCT represents a Delegation Capability Token with restriction caveats
(src/security.go). Times are rationals, see the header conventions. -/
structure DCT where
  TokenID : String
  GranterID : String
  BearerID : String
  Resource : String
  Caveats : List Caveat
  IssuedAt : ℚ
  ExpiresAt : ℚ
  Revoked : Bool
  deriving DecidableEq, Repr

/-- MintDCT creates a new Delegation Capability Token with initial caveats
(src/security.go lines 38-49).  The Go token id embeds `now.UnixNano()`;
we render `now` with `toString`.  `Revoked` is the Go zero value `false`. -/
def MintDCT (now : ℚ) (granterID bearerID resource : String) (ttl : ℚ)
    (caveats : List Caveat) : DCT :=
  { TokenID := "dct_" ++ granterID ++ "_" ++ bearerID ++ "_" ++ toString now
    GranterID := granterID
    BearerID := bearerID
    Resource := resource
    Caveats := caveats
    IssuedAt := now
    ExpiresAt := now + ttl
    Revoked := false }

/-- Attenuate creates a child DCT with additional restrictions
(src/security.go lines 54-69).  `time.Now().After(d.ExpiresAt)` is the strict
comparison `d.ExpiresAt < now`; the `make`/`copy` construction of `allCaveats`
is list append; the child is minted with ttl `time.Until(d.ExpiresAt)
= d.ExpiresAt - now`. -/
def DCT.Attenuate (d : DCT) (now : ℚ) (newBearerID : String)
    (additionalCaveats : List Caveat) : Except String DCT :=
  if d.Revoked then
    .error ("cannot attenuate revoked token " ++ d.TokenID)
  else if d.ExpiresAt < now then
    .error ("cannot attenuate expired token " ++ d.TokenID)
  else
    .ok (MintDCT now d.BearerID newBearerID d.Resource (d.ExpiresAt - now)
      (d.Caveats ++ additionalCaveats))

/-- Caveat loop of ValidateAccess (src/security.go lines 80-91): the first
caveat of kind "operation" whose value does not contain the operation, or of
kind "scope" that is not a prefix of the scope, produces the error; caveats of
any other kind are skipped by the `switch`. -/
def validateCaveats (operation scope : String) : List Caveat → Except String Unit
  | [] => .ok ()
  | c :: rest =>
    if c.kind = "operation" then
      if goContains c.value operation then validateCaveats operation scope rest
      else .error ("operation " ++ operation ++ " not permitted (allowed: " ++ c.value ++ ")")
    else if c.kind = "scope" then
      if goHasPre scope c.value then validateCaveats operation scope rest
      else .error ("scope " ++ scope ++ " outside permitted boundary " ++ c.value)
    else validateCaveats operation scope rest

/-- ValidateAccess checks whether a DCT permits a given operation
(src/security.go lines 72-93). -/
def DCT.ValidateAccess (d : DCT) (now : ℚ) (operation scope : String) :
    Except String Unit :=
  if d.Revoked then .error "token revoked"
  else if d.ExpiresAt < now then .error "token expired"
  else validateCaveats operation scope d.Caveats

/-- One successful attenuation edge: some call to `Attenuate` (at some time,
toward some bearer, with some extra caveats) produced `c` from `d`. -/
def AttStep (d c : DCT) : Prop :=
  ∃ now newBearer extra, d.Attenuate now newBearer extra = .ok c

/-- Ancestor/descendant relation along chains of successful attenuations. -/
def AttChain : DCT → DCT → Prop := Relation.ReflTransGen AttStep

/-! ## Circuit breaker (src/security.go lines 129-200)

Time instants are rationals; `CooldownPeriod` is in minutes, so
`NewCircuitBreaker` sets it to `30` (Go: `30 * time.Minute`).  The Go
`FailureCount`/`FailureThreshold` ints are modelled as `ℤ`. -/

/-- CBState (src/security.go lines 140-146); the Go string type takes only
these three constants in the code, modelled as a closed inductive. -/
inductive CBState where
  | closed
  | opened
  | halfOpen
  deriving DecidableEq, Repr

/-- CircuitBreaker monitors agent health (src/security.go lines 130-138). -/
structure CircuitBreaker where
  AgentID : String
  FailureCount : ℤ
  FailureThreshold : ℤ
  TrustFloor : ℚ
  CooldownPeriod : ℚ
  State : CBState
  LastTripped : ℚ
  deriving DecidableEq, Repr

/-- NewCircuitBreaker (src/security.go lines 148-156); uninitialized Go fields
take their zero values (`FailureCount = 0`, `LastTripped = 0`). -/
def NewCircuitBreaker (agentID : String) (failureThreshold : ℤ)
    (trustFloor : ℚ) : CircuitBreaker :=
  { AgentID := agentID
    FailureCount := 0
    FailureThreshold := failureThreshold
    TrustFloor := trustFloor
    CooldownPeriod := 30
    State := .closed
    LastTripped := 0 }

/-- RecordFailure (src/security.go lines 159-167); returns the mutated breaker
and whether it just tripped. -/
def CircuitBreaker.RecordFailure (cb : CircuitBreaker) (now : ℚ) :
    CircuitBreaker × Bool :=
  let cb := { cb with FailureCount := cb.FailureCount + 1 }
  if cb.FailureCount ≥ cb.FailureThreshold then
    ({ cb with State := .opened, LastTripped := now }, true)
  else (cb, false)

/-- RecordSuccess (src/security.go lines 170-173). -/
def CircuitBreaker.RecordSuccess (cb : CircuitBreaker) : CircuitBreaker :=
  { cb with FailureCount := 0, State := .closed }

/-- CheckTrustDrop (src/security.go lines 176-183). -/
def CircuitBreaker.CheckTrustDrop (cb : CircuitBreaker) (now currentTrust : ℚ) :
    CircuitBreaker × Bool :=
  if currentTrust < cb.TrustFloor then
    ({ cb with State := .opened, LastTripped := now }, true)
  else (cb, false)

/-- IsAllowed (src/security.go lines 186-200); `time.Since(cb.LastTripped) >
cb.CooldownPeriod` is `now - cb.LastTripped > cb.CooldownPeriod`. -/
def CircuitBreaker.IsAllowed (cb : CircuitBreaker) (now : ℚ) :
    CircuitBreaker × Bool :=
  match cb.State with
  | .closed => (cb, true)
  | .opened =>
    if now - cb.LastTripped > cb.CooldownPeriod then
      ({ cb with State := .halfOpen }, true)
    else (cb, false)
  | .halfOpen => (cb, true)

/-- One mutating call on a circuit breaker, used to state that nothing except
RecordSuccess ever returns the breaker to the closed state. -/
inductive CBOp where
  | fail (now : ℚ)
  | success
  | trustDrop (now trust : ℚ)
  | allowed (now : ℚ)

/-- Apply one call to the breaker, keeping only the state change. -/
def cbStep (cb : CircuitBreaker) : CBOp → CircuitBreaker
  | .fail now => (cb.RecordFailure now).1
  | .success => cb.RecordSuccess
  | .trustDrop now trust => (cb.CheckTrustDrop now trust).1
  | .allowed now => (cb.IsAllowed now).1

/-! ## Core data types (src/unnamed/part_001, package types)

Only the fields read or written by the embedded operations are carried;
fields the delegation logic never touches (titles, descriptions, monitoring
modes, verification policies) are omitted from the model.  Times are
rationals measured in days (so the `Hours()/24.0` conversion of the Go code
is the identity here). -/

inductive TaskStatus where
  | pending | decomposed | bidding | assigned | inProgress | checkpoint
  | completed | failed | cancelled | verifying | verified | disputed
  | reAllocating
  deriving DecidableEq, Repr

inductive Criticality where
  | low | medium | high | critical
  deriving DecidableEq, Repr

inductive TriggerType where
  | extTaskChange | extResourceShift | extPriorityShift | extSecurityAlert
  | intPerfDrop | intBudgetOverrun | intVerifyFail | intUnresponsive
  deriving DecidableEq, Repr

/-- TaskSpec (types package), restricted to the fields the embedded engine
and optimizer operations use. -/
structure TaskSpec where
  TaskID : String
  ParentTaskID : String
  DelegatorID : String
  DelegateeID : String
  Status : TaskStatus
  Criticality : Criticality
  Complexity : ℤ
  Uncertainty : ℚ
  EstimatedDuration : ℤ
  MaxBudget : ℚ
  Reversible : Bool
  Verifiability : ℚ
  SubTaskIDs : List String
  IsLeaf : Bool
  CreatedAt : ℚ
  deriving DecidableEq, Repr

/-- Bid (types package); `SubmittedAt` is set by SubmitBid which no claim
exercises, so it is omitted. -/
structure Bid where
  BidID : String
  TaskID : String
  AgentID : String
  EstimatedCost : ℚ
  EstimatedTime : ℤ
  Confidence : ℚ
  deriving DecidableEq, Repr

/-- ReputationRecord (types package). `RecordedAt` is in days. -/
structure ReputationRecord where
  AgentID : String
  TaskID : String
  Outcome : String
  QualityScore : ℚ
  TimelinessScore : ℚ
  CostAdherence : ℚ
  SafetyCompliance : ℚ
  DelegatorID : String
  RecordedAt : ℚ
  deriving DecidableEq, Repr

/-- AdaptiveTrigger (types package). -/
structure AdaptiveTrigger where
  TriggerID : String
  TaskID : String
  TrigType : TriggerType
  AgentID : String
  Description : String
  Urgent : Bool
  deriving DecidableEq, Repr

/-! ## Reputation scoring (src/engine.go lines 543-566)

`ComputeTrustScore` reads the agent's history from the backend; the model
takes the retrieved record list directly (successful `GetReputationHistory`).
Ages are in days: `now.Sub(rec.RecordedAt).Hours() / 24.0 = now -
rec.RecordedAt`. -/

/-- The per-record decay weight `1.0 / (1.0 + age/30.0)` of ComputeTrustScore
(src/engine.go line 555). -/
def recencyWeight (ageDays : ℚ) : ℚ := 1 / (1 + ageDays / 30)

/-- The component average `(quality + timeliness + cost + safety) / 4`
(src/engine.go line 557). -/
def recordScore (rec : ReputationRecord) : ℚ :=
  (rec.QualityScore + rec.TimelinessScore + rec.CostAdherence +
    rec.SafetyCompliance) / 4

/-- The accumulation loop of ComputeTrustScore: running
`(weightedSum, totalWeight)`. -/
def trustFold (now : ℚ) (records : List ReputationRecord) : ℚ × ℚ :=
  records.foldl
    (fun acc rec =>
      (acc.1 + recordScore rec * recencyWeight (now - rec.RecordedAt),
       acc.2 + recencyWeight (now - rec.RecordedAt)))
    (0, 0)

/-- ComputeTrustScore (src/engine.go lines 545-566): neutral 0.5 on empty
history, otherwise decay-weighted mean, with a 0.5 guard when the total
weight is zero. -/
def ComputeTrustScore (now : ℚ) (records : List ReputationRecord) : ℚ :=
  if records.isEmpty then 1/2
  else
    let acc := trustFold now records
    if acc.2 = 0 then 1/2 else acc.1 / acc.2

/-! ## Engine task-graph state (src/engine.go)

The backend record store, restricted to what the embedded operations touch:
the Tasks domain as a latest-write-wins association list from task id to
spec, the append-only Reputation domain as a list of records (newest first),
and the list of bidding channels created by PublishTaskForBidding.  All
backend calls are modelled on their success path (see header). -/

structure EngineSt where
  selfID : String
  tasks : List (String × TaskSpec)
  reputation : List ReputationRecord
  biddingChannels : List String
  deriving DecidableEq, Repr

/-- Latest-write-wins store update: a new `Post` under the same key shadows
the previous one. -/
def storePut (st : List (String × TaskSpec)) (key : String) (v : TaskSpec) :
    List (String × TaskSpec) :=
  (key, v) :: st

/-- Latest read, `Get` with the latest timestamp, on the Tasks domain. -/
def storeGet (st : List (String × TaskSpec)) (key : String) : Option TaskSpec :=
  (st.find? (fun kv => kv.1 == key)).map (fun kv => kv.2)

/-- CreateTask (src/engine.go lines 186-207): stamps CreatedAt, resets the
status to pending, and stores the spec (entity/RDID registration is backend
success). -/
def CreateTask (now : ℚ) (task : TaskSpec) (st : EngineSt) : EngineSt :=
  let stamped : TaskSpec := { task with CreatedAt := now, Status := .pending }
  { st with tasks := storePut st.tasks task.TaskID stamped }

/-- GetTask (src/engine.go lines 251-261). -/
def GetTask (st : EngineSt) (taskID : String) : Option TaskSpec :=
  storeGet st.tasks taskID

/-- UpdateTask (src/engine.go lines 264-270). -/
def UpdateTask (task : TaskSpec) (st : EngineSt) : EngineSt :=
  { st with tasks := storePut st.tasks task.TaskID task }

/-- The per-child body of the DecomposeTask loop (src/engine.go lines
219-236): reparent the child, reject non-leaf children with verifiability
below 0.3, otherwise create (persist) it.  The loop aborts at the first
rejected child, keeping every store write already performed. -/
def decomposeLoop (now : ℚ) (parentID delegatorID : String) :
    List TaskSpec → List String → EngineSt →
    Except String (List String) × EngineSt
  | [], ids, st => (.ok ids, st)
  | sub :: rest, ids, st =>
    let sub := { sub with ParentTaskID := parentID, DelegatorID := delegatorID }
    if sub.Verifiability < 3/10 ∧ sub.IsLeaf = false then
      (.error ("sub-task " ++ sub.TaskID ++ " has low verifiability"), st)
    else
      decomposeLoop now parentID delegatorID rest (ids ++ [sub.TaskID])
        (CreateTask now sub st)

/-- DecomposeTask (src/engine.go lines 212-248). -/
def DecomposeTask (now : ℚ) (st : EngineSt) (parentID : String)
    (subTasks : List TaskSpec) : Except String TaskSpec × EngineSt :=
  match GetTask st parentID with
  | none => (.error "get parent task", st)
  | some parent =>
    match decomposeLoop now parentID parent.DelegatorID subTasks [] st with
    | (.error e, st) => (.error e, st)
    | (.ok subIDs, st) =>
      let parent :=
        { parent with SubTaskIDs := subIDs, Status := .decomposed, IsLeaf := false }
      (.ok parent, UpdateTask parent st)

/-- RecordReputation (src/engine.go lines 522-528): stamps RecordedAt and
appends to the reputation ledger (keys are unique per write, so the ledger
only grows). -/
def RecordReputation (now : ℚ) (record : ReputationRecord) (st : EngineSt) :
    EngineSt :=
  { st with reputation := { record with RecordedAt := now } :: st.reputation }

/-- PublishTaskForBidding (src/engine.go lines 279-303): creates the
`bid_<taskID>` channel, moves the task to Bidding, stores it, publishes. -/
def PublishTaskForBidding (now : ℚ) (task : TaskSpec) (st : EngineSt) :
    EngineSt :=
  let st := UpdateTask { task with Status := .bidding } st
  { st with biddingChannels := ("bid_" ++ task.TaskID) :: st.biddingChannels }

/-- reDelegate (src/engine.go lines 490-514): reputation hit for the failed
delegatee (zero quality/timeliness, Go zero values for the other component
scores), clear the delegatee, mark ReAllocating, re-publish for bidding. -/
def reDelegate (now : ℚ) (task : TaskSpec) (st : EngineSt) : EngineSt :=
  let st :=
    if task.DelegateeID ≠ "" then
      RecordReputation now
        { AgentID := task.DelegateeID
          TaskID := task.TaskID
          Outcome := "failure"
          QualityScore := 0
          TimelinessScore := 0
          CostAdherence := 0
          SafetyCompliance := 0
          DelegatorID := st.selfID
          RecordedAt := 0 } st
    else st
  let task := { task with DelegateeID := "", Status := .reAllocating }
  PublishTaskForBidding now task (UpdateTask task st)

/-- evaluateAndRespond (src/engine.go lines 451-487): the adaptive response
cycle.  Step A: irreversible + urgent cancels the task and stops; step B:
urgent re-delegates; step C branches on the trigger type. -/
def evaluateAndRespond (now : ℚ) (task : TaskSpec) (trigger : AdaptiveTrigger)
    (st : EngineSt) : EngineSt :=
  if task.Reversible = false ∧ trigger.Urgent = true then
    UpdateTask { task with Status := .cancelled } st
  else if trigger.Urgent = true then
    reDelegate now task st
  else
    match trigger.TrigType with
    | .intBudgetOverrun =>
      UpdateTask { task with MaxBudget := task.MaxBudget * (12/10) } st
    | .intPerfDrop => reDelegate now task st
    | .intUnresponsive => reDelegate now task st
    | .intVerifyFail => UpdateTask { task with Status := .reAllocating } st
    | _ => st

/-! ## Go sort.Slice (pdqsort)

`RankBids` sorts with `sort.Slice` from the Go standard library (go 1.25 per
go.mod), which is pattern-defeating quicksort and is documented as NOT
stable.  The algorithm below is transcribed from Go's
`src/sort/zsortfunc.go` / `src/sort/sort.go`.  The data is a `List α`
accessed by index; `lswap` is `data.Swap` (guarded to be a no-op out of
bounds, which Go never exercises).  Loops carry an explicit fuel that is
chosen at each call site to dominate the Go loop bound, so within that fuel
the model steps exactly as the Go code does. -/

section GoSort

variable {α : Type}

/-- Indexed read, `data[i]`. -/
def nthd [Inhabited α] (xs : List α) (i : Nat) : α := xs.getD i default

/-- Indexed swap, `data.Swap(i, j)`. -/
def lswap [Inhabited α] (xs : List α) (i j : Nat) : List α :=
  if i < xs.length ∧ j < xs.length then
    (xs.set i (nthd xs j)).set j (nthd xs i)
  else xs

variable [Inhabited α] (less : α → α → Bool)

/-- Indexed comparison, `data.Less(i, j)`. -/
def lessIdx (xs : List α) (i j : Nat) : Bool := less (nthd xs i) (nthd xs j)

/-- Inner loop of insertionSort: `for j := i; j > a && Less(j, j-1); j--
{ Swap(j, j-1) }`. -/
def insInner : Nat → List α → Nat → Nat → List α
  | 0, xs, _, _ => xs
  | fuel + 1, xs, j, a =>
    if j > a ∧ lessIdx less xs j (j - 1) = true then
      insInner fuel (lswap xs j (j - 1)) (j - 1) a
    else xs

/-- Outer loop of insertionSort: `for i := a + 1; i < b; i++`. -/
def insOuter : Nat → List α → Nat → Nat → Nat → List α
  | 0, xs, _, _, _ => xs
  | fuel + 1, xs, i, a, b =>
    if i < b then insOuter fuel (insInner less b xs i a) (i + 1) a b
    else xs

/-- insertionSort_func (zsortfunc.go): stable insertion sort of data[a:b]. -/
def insertionSort (xs : List α) (a b : Nat) : List α :=
  insOuter less b xs (a + 1) a b

/-- siftDown_func (zsortfunc.go): implements the heap property on
data[lo:hi], offset by first. -/
def siftDown : Nat → List α → Nat → Nat → Nat → List α
  | 0, xs, _, _, _ => xs
  | fuel + 1, xs, root, hi, first =>
    let child := 2 * root + 1
    if child ≥ hi then xs
    else
      let child :=
        if child + 1 < hi ∧ lessIdx less xs (first + child) (first + child + 1) = true
        then child + 1 else child
      if lessIdx less xs (first + root) (first + child) = false then xs
      else siftDown fuel (lswap xs (first + root) (first + child)) child hi first

/-- Heap-build loop of heapSort_func: `for i := (hi-1)/2; i >= 0; i--`. -/
def heapBuild : Nat → List α → Nat → Nat → Nat → List α
  | 0, xs, _, _, _ => xs
  | fuel + 1, xs, i, hi, first =>
    let xs := siftDown less hi xs i hi first
    if i = 0 then xs else heapBuild fuel xs (i - 1) hi first

/-- Pop loop of heapSort_func: `for i := hi - 1; i >= 0; i--`. -/
def heapPop : Nat → List α → Nat → Nat → List α
  | 0, xs, _, _ => xs
  | fuel + 1, xs, i, first =>
    let xs := lswap xs first (first + i)
    let xs := siftDown less i xs 0 i first
    if i = 0 then xs else heapPop fuel xs (i - 1) first

/-- heapSort_func (zsortfunc.go).  The `hi = 0` guard mirrors Go's pop loop
being skipped when `hi-1` is negative; pdqsort only calls this with
`b - a > 12`. -/
def heapSort (xs : List α) (a b : Nat) : List α :=
  let first := a
  let hi := b - a
  let xs := heapBuild less (hi + 1) xs ((hi - 1) / 2) hi first
  if hi = 0 then xs else heapPop less (hi + 1) xs (hi - 1) first

/-- reverseRange_func (zsortfunc.go). -/
def revRange : Nat → List α → Nat → Nat → List α
  | 0, xs, _, _ => xs
  | fuel + 1, xs, i, j =>
    if i < j then revRange fuel (lswap xs i j) (i + 1) (j - 1) else xs

/-- order2_func: returns the two indices in increasing data order plus the
updated swap counter. -/
def order2 (xs : List α) (a b swaps : Nat) : Nat × Nat × Nat :=
  if lessIdx less xs b a = true then (b, a, swaps + 1) else (a, b, swaps)

/-- median_func: index of the median of three, with the swap counter. -/
def median (xs : List α) (a b c swaps : Nat) : Nat × Nat :=
  let r1 := order2 less xs a b swaps
  let a := r1.1
  let b := r1.2.1
  let r2 := order2 less xs b c r1.2.2
  let b := r2.1
  let r3 := order2 less xs a b r2.2.2
  (r3.2.1, r3.2.2)

/-- medianAdjacent_func: median of data[i-1], data[i], data[i+1]. -/
def medianAdjacent (xs : List α) (i swaps : Nat) : Nat × Nat :=
  median less xs (i - 1) i (i + 1) swaps

inductive SortedHint where
  | unknown | increasing | decreasing
  deriving DecidableEq, Repr

/-- choosePivot_func (zsortfunc.go): static pivot below 8 elements,
median-of-three below 50, Tukey ninther above; the swap counter turns into
the sortedness hint (0 swaps → increasing, 12 → decreasing). -/
def choosePivot (xs : List α) (a b : Nat) : Nat × SortedHint :=
  let l := b - a
  let i := a + (l / 4) * 1
  let j := a + (l / 4) * 2
  let k := a + (l / 4) * 3
  if l ≥ 8 then
    if l ≥ 50 then
      let mi := medianAdjacent less xs i 0
      let mj := medianAdjacent less xs j mi.2
      let mk := medianAdjacent less xs k mj.2
      let mf := median less xs mi.1 mj.1 mk.1 mk.2
      if mf.2 = 0 then (mf.1, .increasing)
      else if mf.2 = 12 then (mf.1, .decreasing)
      else (mf.1, .unknown)
    else
      let mf := median less xs i j k 0
      if mf.2 = 0 then (mf.1, .increasing)
      else if mf.2 = 12 then (mf.1, .decreasing)
      else (mf.1, .unknown)
  else (j, .increasing)

/-- Scan of partialInsertionSort_func: advance i over pairs already in
order. -/
def pisScan : Nat → List α → Nat → Nat → Nat
  | 0, _, i, _ => i
  | fuel + 1, xs, i, b =>
    if i < b ∧ lessIdx less xs i (i - 1) = false then pisScan fuel xs (i + 1) b
    else i

/-- Left shift of partialInsertionSort_func: `for j := i - 1; j >= 1; j--`. -/
def pisShiftL : Nat → List α → Nat → List α
  | 0, xs, _ => xs
  | fuel + 1, xs, j =>
    if j ≥ 1 then
      if lessIdx less xs j (j - 1) = true then
        pisShiftL fuel (lswap xs j (j - 1)) (j - 1)
      else xs
    else xs

/-- Right shift of partialInsertionSort_func: `for j := i + 1; j < b; j++`. -/
def pisShiftR : Nat → List α → Nat → Nat → List α
  | 0, xs, _, _ => xs
  | fuel + 1, xs, j, b =>
    if j < b then
      if lessIdx less xs j (j - 1) = true then
        pisShiftR fuel (lswap xs j (j - 1)) (j + 1) b
      else xs
    else xs

/-- The maxSteps loop of partialInsertionSort_func. -/
def pisSteps : Nat → List α → Nat → Nat → Nat → List α × Bool
  | 0, xs, _, _, _ => (xs, false)
  | steps + 1, xs, i, a, b =>
    let i := pisScan less b xs i b
    if i = b then (xs, true)
    else if b - a < 50 then (xs, false)
    else
      let xs := lswap xs i (i - 1)
      let xs := if i - a ≥ 2 then pisShiftL less b xs (i - 1) else xs
      let xs := if b - i ≥ 2 then pisShiftR less b xs (i + 1) b else xs
      pisSteps steps xs i a b

/-- partialInsertionSort_func (zsortfunc.go): partially sorts the slice,
returning true if it ends up fully sorted (maxSteps = 5, shortestShifting =
50). -/
def partialInsertionSort (xs : List α) (a b : Nat) : List α × Bool :=
  pisSteps less 5 xs (a + 1) a b

/-- bits.Len for uint. -/
def bitsLen (n : Nat) : Nat := if n = 0 then 0 else n.log2 + 1

/-- One step of the xorshift⁶⁴ generator of Go's sort package. -/
def xorshiftNext (r : Nat) : Nat :=
  let r := (r ^^^ (r <<< 13)) % 2 ^ 64
  let r := (r ^^^ (r >>> 7)) % 2 ^ 64
  (r ^^^ (r <<< 17)) % 2 ^ 64

/-- breakPatterns_func (zsortfunc.go): three pseudo-random swaps around the
midpoint, seeded with the slice length. -/
def breakPatterns (xs : List α) (a b : Nat) : List α :=
  let length := b - a
  if length ≥ 8 then
    let modulus := 2 ^ bitsLen length
    let idx := a + (length / 4) * 2 - 1
    let r1 := xorshiftNext length
    let o1 := let o := r1 &&& (modulus - 1); if o ≥ length then o - length else o
    let xs := lswap xs (idx - 1) (a + o1)
    let r2 := xorshiftNext r1
    let o2 := let o := r2 &&& (modulus - 1); if o ≥ length then o - length else o
    let xs := lswap xs idx (a + o2)
    let r3 := xorshiftNext r2
    let o3 := let o := r3 &&& (modulus - 1); if o ≥ length then o - length else o
    lswap xs (idx + 1) (a + o3)
  else xs

/-- Upward scan of partition_func: `for i <= j && data.Less(i, a) { i++ }`. -/
def scanUp : Nat → List α → Nat → Nat → Nat → Nat
  | 0, _, i, _, _ => i
  | fuel + 1, xs, i, j, a =>
    if i ≤ j ∧ lessIdx less xs i a = true then scanUp fuel xs (i + 1) j a else i

/-- Downward scan of partition_func: `for i <= j && !data.Less(j, a)
{ j-- }`. -/
def scanDown : Nat → List α → Nat → Nat → Nat → Nat
  | 0, _, _, j, _ => j
  | fuel + 1, xs, i, j, a =>
    if i ≤ j ∧ lessIdx less xs j a = false then scanDown fuel xs i (j - 1) a else j

/-- Main loop of partition_func. -/
def partMain : Nat → List α → Nat → Nat → Nat → List α × Nat
  | 0, xs, _, j, _ => (xs, j)
  | fuel + 1, xs, i, j, a =>
    let i := scanUp less (fuel + 1) xs i j a
    let j := scanDown less (fuel + 1) xs i j a
    if i > j then (xs, j)
    else partMain fuel (lswap xs i j) (i + 1) (j - 1) a

/-- partition_func (zsortfunc.go): Hoare partition around data[pivot],
returning the new pivot position and whether the slice was already
partitioned. -/
def partition (xs : List α) (a b pivot : Nat) : List α × Nat × Bool :=
  let xs := lswap xs a pivot
  let i := a + 1
  let j := b - 1
  let i := scanUp less b xs i j a
  let j := scanDown less b xs i j a
  if i > j then (lswap xs j a, j, true)
  else
    let xs := lswap xs i j
    let r := partMain less b xs (i + 1) (j - 1) a
    (lswap r.1 r.2 a, r.2, false)

/-- Upward scan of partitionEqual_func. -/
def scanUpEq : Nat → List α → Nat → Nat → Nat → Nat
  | 0, _, i, _, _ => i
  | fuel + 1, xs, i, j, a =>
    if i ≤ j ∧ lessIdx less xs a i = false then scanUpEq fuel xs (i + 1) j a else i

/-- Downward scan of partitionEqual_func. -/
def scanDownEq : Nat → List α → Nat → Nat → Nat → Nat
  | 0, _, _, j, _ => j
  | fuel + 1, xs, i, j, a =>
    if i ≤ j ∧ lessIdx less xs a j = true then scanDownEq fuel xs i (j - 1) a else j

/-- Main loop of partitionEqual_func. -/
def partEqMain : Nat → List α → Nat → Nat → Nat → List α × Nat
  | 0, xs, i, _, _ => (xs, i)
  | fuel + 1, xs, i, j, a =>
    let i := scanUpEq less (fuel + 1) xs i j a
    let j := scanDownEq less (fuel + 1) xs i j a
    if i > j then (xs, i)
    else partEqMain fuel (lswap xs i j) (i + 1) (j - 1) a

/-- partitionEqual_func (zsortfunc.go): moves elements equal to data[pivot]
to the front, returning the first index after them. -/
def partitionEqual (xs : List α) (a b pivot : Nat) : List α × Nat :=
  let xs := lswap xs a pivot
  partEqMain less b xs (a + 1) (b - 1) a

/-- The `if !wasBalanced { breakPatterns(data, a, b); limit-- }` step of
pdqsort_func, data part. -/
def pdqBreak (wasBalanced : Bool) (xs : List α) (a b : Nat) : List α :=
  if wasBalanced = false then breakPatterns xs a b else xs

/-- The `if !wasBalanced { ...; limit-- }` step of pdqsort_func, limit
part. -/
def pdqLimit (wasBalanced : Bool) (limit : Nat) : Nat :=
  if wasBalanced = false then limit - 1 else limit

/-- The `pivot, hint := choosePivot(...); if hint == decreasingHint { ... }`
step of pdqsort_func: the possibly reversed data, the adjusted pivot, and
the adjusted hint. -/
def pdqPivot (xs : List α) (a b : Nat) : List α × Nat × SortedHint :=
  let cp := choosePivot less xs a b
  if cp.2 = SortedHint.decreasing then
    (revRange b xs a (b - 1), (b - 1) - (cp.1 - a), SortedHint.increasing)
  else (xs, cp.1, cp.2)

/-- The guarded partialInsertionSort attempt of pdqsort_func ("the slice is
likely already sorted"). -/
def pdqMaybeSorted (wasBalanced wasPartitioned : Bool) (hint : SortedHint)
    (xs : List α) (a b : Nat) : List α × Bool :=
  if wasBalanced = true ∧ wasPartitioned = true ∧ hint = SortedHint.increasing then
    partialInsertionSort less xs a b
  else (xs, false)

/-- pdqsort_func (zsortfunc.go): the main loop.  One fuel unit per loop
iteration; recursive calls (Go recursion and the `a = ...; continue`
iterations) receive the decremented fuel, and `b - a + 1` units suffice
since every continuation shrinks the interval. -/
def pdqsortLoop : Nat → List α → Nat → Nat → Nat → Bool → Bool → List α
  | 0, xs, _, _, _, _, _ => xs
  | fuel + 1, xs, a, b, limit, wasBalanced, wasPartitioned =>
    let length := b - a
    if length ≤ 12 then insertionSort less xs a b
    else if limit = 0 then heapSort less xs a b
    else
      let xs1 := pdqBreak wasBalanced xs a b
      let limit := pdqLimit wasBalanced limit
      let rv := pdqPivot less xs1 a b
      let pivot := rv.2.1
      let pis := pdqMaybeSorted less wasBalanced wasPartitioned rv.2.2 rv.1 a b
      if pis.2 = true then pis.1
      else if a > 0 ∧ lessIdx less pis.1 (a - 1) pivot = false then
        let pe := partitionEqual less pis.1 a b pivot
        pdqsortLoop fuel pe.1 pe.2 b limit wasBalanced wasPartitioned
      else
        let pr := partition less pis.1 a b pivot
        let mid := pr.2.1
        let leftLen := mid - a
        let rightLen := b - mid
        let newBalanced := decide (min leftLen rightLen ≥ length / 8)
        if leftLen < rightLen then
          pdqsortLoop fuel (pdqsortLoop fuel pr.1 a mid limit true true)
            (mid + 1) b limit newBalanced pr.2.2
        else
          pdqsortLoop fuel (pdqsortLoop fuel pr.1 (mid + 1) b limit true true)
            a mid limit newBalanced pr.2.2

/-- pdqsort_func entry: fresh wasBalanced/wasPartitioned. -/
def pdqsort (xs : List α) (a b limit : Nat) : List α :=
  pdqsortLoop less (b - a + 1) xs a b limit true true

/-- sort.Slice (sort/slice.go): `limit := bits.Len(uint(length))`. -/
def sortSlice (xs : List α) : List α :=
  pdqsort less xs 0 xs.length (bitsLen xs.length)

end GoSort

/-! ## Market optimizer (src/optimizer.go)

Go maps become association lists; a missing key yields the Go zero value
(`0.0` for float64 trust, nil for capability slices). -/

/-- OptimizationWeights (src/optimizer.go lines 17-23). -/
structure OptimizationWeights where
  Cost : ℚ
  Speed : ℚ
  Trust : ℚ
  Confidence : ℚ
  CapMatch : ℚ
  deriving DecidableEq, Repr

/-- DefaultWeights (src/optimizer.go lines 26-34). -/
def DefaultWeights : OptimizationWeights :=
  { Cost := 20/100, Speed := 15/100, Trust := 30/100,
    Confidence := 15/100, CapMatch := 20/100 }

/-- HighStakesWeights (src/optimizer.go lines 37-45). -/
def HighStakesWeights : OptimizationWeights :=
  { Cost := 5/100, Speed := 5/100, Trust := 45/100,
    Confidence := 20/100, CapMatch := 25/100 }

/-- CostOptimizedWeights (src/optimizer.go lines 48-56). -/
def CostOptimizedWeights : OptimizationWeights :=
  { Cost := 40/100, Speed := 25/100, Trust := 15/100,
    Confidence := 10/100, CapMatch := 10/100 }

/-- ScoredBid (src/optimizer.go lines 59-68). -/
structure ScoredBid where
  Bid : Bid
  Score : ℚ
  CostScore : ℚ
  SpeedScore : ℚ
  TrustScore : ℚ
  ConfidenceScore : ℚ
  CapMatchScore : ℚ
  deriving DecidableEq, Repr

instance : Inhabited ScoredBid :=
  ⟨{ Bid := { BidID := "", TaskID := "", AgentID := "", EstimatedCost := 0,
              EstimatedTime := 0, Confidence := 0 },
     Score := 0, CostScore := 0, SpeedScore := 0, TrustScore := 0,
     ConfidenceScore := 0, CapMatchScore := 0 }⟩

/-- math.MaxFloat64, exactly (computed in ℕ so that concrete runs reduce). -/
def goMaxFloat64 : ℚ := (((2 ^ 53 - 1) * 2 ^ 971 : ℕ) : ℚ)

/-- math.MaxInt64. -/
def goMaxInt64 : ℤ := ((2 ^ 63 - 1 : ℕ) : ℤ)

/-- Go map read with float64 zero value for missing keys
(`agentTrust[bid.AgentID]`, src/optimizer.go line 117). -/
def lookupTrust (m : List (String × ℚ)) (k : String) : ℚ :=
  ((m.find? (fun kv => kv.1 == k)).map (fun kv => kv.2)).getD 0

/-- Go map read with nil zero value for missing keys
(`agentCaps[bid.AgentID]`, src/optimizer.go line 120). -/
def lookupCaps (m : List (String × List String)) (k : String) : List String :=
  ((m.find? (fun kv => kv.1 == k)).map (fun kv => kv.2)).getD []

/-- capabilityMatchScore (src/optimizer.go lines 149-164). -/
def capabilityMatchScore (required offered : List String) : ℚ :=
  if required.length = 0 then 1
  else (required.countP (fun r => offered.contains r) : ℚ) / (required.length : ℚ)

/-- The min/max normalization scan of RankBids (src/optimizer.go lines
85-100), with Go's sentinels math.MaxFloat64 / math.MaxInt64 / 0. -/
def minMaxFold (bids : List Bid) : ℚ × ℚ × ℤ × ℤ :=
  bids.foldl
    (fun acc b =>
      let minC := if b.EstimatedCost < acc.1 then b.EstimatedCost else acc.1
      let maxC := if b.EstimatedCost > acc.2.1 then b.EstimatedCost else acc.2.1
      let minT := if b.EstimatedTime < acc.2.2.1 then b.EstimatedTime else acc.2.2.1
      let maxT := if b.EstimatedTime > acc.2.2.2 then b.EstimatedTime else acc.2.2.2
      (minC, maxC, minT, maxT))
    (goMaxFloat64, 0, goMaxInt64, 0)

/-- The scoring pass of RankBids (src/optimizer.go lines 102-138). -/
def scoreBids (bids : List Bid) (weights : OptimizationWeights)
    (agentTrust : List (String × ℚ)) (requiredCaps : List String)
    (agentCaps : List (String × List String)) : List ScoredBid :=
  let mm := minMaxFold bids
  let minCost := mm.1
  let maxCost := mm.2.1
  let minTime := mm.2.2.1
  let maxTime := mm.2.2.2
  bids.map (fun bid =>
    let costScore :=
      if maxCost > minCost then
        1 - (bid.EstimatedCost - minCost) / (maxCost - minCost)
      else 1
    let speedScore :=
      if maxTime > minTime then
        1 - ((bid.EstimatedTime - minTime : ℤ) : ℚ) / ((maxTime - minTime : ℤ) : ℚ)
      else 1
    let trust := lookupTrust agentTrust bid.AgentID
    let capScore := capabilityMatchScore requiredCaps (lookupCaps agentCaps bid.AgentID)
    let total := weights.Cost * costScore + weights.Speed * speedScore +
      weights.Trust * trust + weights.Confidence * bid.Confidence +
      weights.CapMatch * capScore
    { Bid := bid, Score := total, CostScore := costScore,
      SpeedScore := speedScore, TrustScore := trust,
      ConfidenceScore := bid.Confidence, CapMatchScore := capScore })

/-- RankBids (src/optimizer.go lines 73-146): score, then `sort.Slice` with
`scored[i].Score > scored[j].Score`. -/
def RankBids (bids : List Bid) (weights : OptimizationWeights)
    (agentTrust : List (String × ℚ)) (requiredCaps : List String)
    (agentCaps : List (String × List String)) : List ScoredBid :=
  if bids.length = 0 then []
  else
    sortSlice (fun x y => decide (x.Score > y.Score))
      (scoreBids bids weights agentTrust requiredCaps agentCaps)

/-! ## Concrete instances used by counterexamples and witnesses -/

instance {ε α : Type} [DecidableEq ε] [DecidableEq α] :
    DecidableEq (Except ε α) := fun a b =>
  match a, b with
  | .error e, .error f =>
    if h : e = f then .isTrue (by rw [h])
    else .isFalse (fun hh => h (Except.error.inj hh))
  | .error _, .ok _ => .isFalse (fun hh => Except.noConfusion hh)
  | .ok _, .error _ => .isFalse (fun hh => Except.noConfusion hh)
  | .ok x, .ok y =>
    if h : x = y then .isTrue (by rw [h])
    else .isFalse (fun hh => h (Except.ok.inj hh))

/-- The reparenting assignment at the top of the DecomposeTask loop
(src/engine.go lines 221-222). -/
def reparent (parentID delegatorID : String) (s : TaskSpec) : TaskSpec :=
  { s with ParentTaskID := parentID, DelegatorID := delegatorID }

/-- The rejection condition of the DecomposeTask loop (src/engine.go line
225): low verifiability on a non-leaf child. -/
def childRejected (sub : TaskSpec) : Prop :=
  sub.Verifiability < 3/10 ∧ sub.IsLeaf = false

instance : DecidablePred childRejected := fun s => by
  unfold childRejected; infer_instance

/-- A live read-only sample token. -/
def tokRead : DCT :=
  { TokenID := "tok-read", GranterID := "g", BearerID := "b", Resource := "db"
    Caveats := [{ kind := "operation", key := "ops", value := "read" }]
    IssuedAt := 0, ExpiresAt := 10, Revoked := false }

/-- A revoked sample token. -/
def tokRevoked : DCT :=
  { tokRead with TokenID := "tok-revoked", Revoked := true }

/-- A live sample token carrying only time/budget caveats. -/
def tokTimeBudget : DCT :=
  { tokRead with
    TokenID := "tok-tb",
    Caveats := [{ kind := "time", key := "until", value := "t1" },
                { kind := "budget", key := "max", value := "100" }] }

/-- A tripped sample breaker (threshold 3, tripped at time 0). -/
def cbTripped : CircuitBreaker :=
  ((((NewCircuitBreaker "agent-x" 3 (4/10)).RecordFailure 0).1.RecordFailure
    0).1.RecordFailure 0).1

/-- A sample parent task. -/
def taskP : TaskSpec :=
  { TaskID := "p", ParentTaskID := "", DelegatorID := "d", DelegateeID := ""
    Status := .pending, Criticality := .medium, Complexity := 5
    Uncertainty := 0, EstimatedDuration := 100, MaxBudget := 10
    Reversible := true, Verifiability := 1, SubTaskIDs := [], IsLeaf := true
    CreatedAt := 0 }

/-- A valid (leaf, verifiable) child spec. -/
def subGood : TaskSpec := { taskP with TaskID := "s1" }

/-- An invalid child spec: verifiability 0.1 and not a leaf. -/
def subBad : TaskSpec :=
  { taskP with TaskID := "s2", Verifiability := 1/10, IsLeaf := false }

/-- Engine state holding only the parent task. -/
def st0 : EngineSt :=
  { selfID := "self", tasks := [("p", taskP)], reputation := []
    biddingChannels := [] }

/-- A sample reputation record with all component scores one half. -/
def recSample : ReputationRecord :=
  { AgentID := "a", TaskID := "t", Outcome := "success", QualityScore := 1/2
    TimelinessScore := 1/2, CostAdherence := 1/2, SafetyCompliance := 1/2
    DelegatorID := "d", RecordedAt := 0 }

/-- An irreversible assigned sample task. -/
def taskIrrev : TaskSpec :=
  { taskP with
    TaskID := "q", Reversible := false, DelegateeID := "worker",
    Status := .assigned }

/-- An urgent sample trigger. -/
def trigUrgent : AdaptiveTrigger :=
  { TriggerID := "tr1", TaskID := "q", TrigType := .intPerfDrop
    AgentID := "worker", Description := "", Urgent := true }

/-- Weights isolating the confidence dimension, so each total score equals
the bid confidence. -/
def wConfOnly : OptimizationWeights :=
  { Cost := 0, Speed := 0, Trust := 0, Confidence := 1, CapMatch := 0 }

/-- Weights isolating the trust dimension. -/
def wTrustOnly : OptimizationWeights :=
  { Cost := 0, Speed := 0, Trust := 1, Confidence := 0, CapMatch := 0 }

/-- A bid template with unit cost and time. -/
def mkBid (id : String) (conf : ℚ) : Bid :=
  { BidID := id, TaskID := "t", AgentID := "agent-unknown", EstimatedCost := 1
    EstimatedTime := 1, Confidence := conf }

/-- Thirteen bids, identical except for confidence: seven tied at 0.5
(submitted in the order T0, T2, T4, T6, T8, T10, T12) interleaved with six
distinct scores. -/
def c2Bids : List Bid :=
  [mkBid "T0" (5/10), mkBid "b9" (9/10), mkBid "T2" (5/10), mkBid "b8" (8/10),
   mkBid "T4" (5/10), mkBid "b7" (7/10), mkBid "T6" (5/10), mkBid "b6" (6/10),
   mkBid "T8" (5/10), mkBid "b4" (4/10), mkBid "T10" (5/10), mkBid "b3" (3/10),
   mkBid "T12" (5/10)]

/-- The ScoredBid that the scoring pass produces for a unit-cost, unit-time
bid under confidence-only weights with no trust entries and no required
capabilities. -/
def mkScored (id : String) (conf : ℚ) : ScoredBid :=
  { Bid := mkBid id conf, Score := conf, CostScore := 1, SpeedScore := 1,
    TrustScore := 0, ConfidenceScore := conf, CapMatchScore := 1 }

/-- The scoring-pass output on the thirteen sample bids. -/
def c2Scored : List ScoredBid :=
  [mkScored "T0" (5/10), mkScored "b9" (9/10), mkScored "T2" (5/10),
   mkScored "b8" (8/10), mkScored "T4" (5/10), mkScored "b7" (7/10),
   mkScored "T6" (5/10), mkScored "b6" (6/10), mkScored "T8" (5/10),
   mkScored "b4" (4/10), mkScored "T10" (5/10), mkScored "b3" (3/10),
   mkScored "T12" (5/10)]

/-! ### Helper lemmas on tokens -/

theorem attenuate_ok_eq {d : DCT} {now : ℚ} {nb : String} {extra : List Caveat}
    {c : DCT} (h : d.Attenuate now nb extra = .ok c) :
    c = MintDCT now d.BearerID nb d.Resource (d.ExpiresAt - now) (d.Caveats ++ extra) := by
  unfold DCT.Attenuate at h
  split at h
  · exact absurd h (by simp)
  · split at h
    · exact absurd h (by simp)
    · exact ((Except.ok.injEq _ _).mp h).symm

theorem validateCaveats_ok {op scope : String} {l : List Caveat}
    (h1 : ∀ c ∈ l, c.kind = "operation" → goContains c.value op = true)
    (h2 : ∀ c ∈ l, c.kind = "scope" → goHasPre scope c.value = true) :
    validateCaveats op scope l = .ok () := by
  induction l with
  | nil => rfl
  | cons c rest ih =>
    have ih := ih (fun x hx => h1 x (List.mem_cons_of_mem c hx))
      (fun x hx => h2 x (List.mem_cons_of_mem c hx))
    unfold validateCaveats
    by_cases hop : c.kind = "operation"
    · rw [if_pos hop, h1 c (List.mem_cons_self c rest) hop, if_pos rfl]; exact ih
    · rw [if_neg hop]
      by_cases hsc : c.kind = "scope"
      · rw [if_pos hsc, h2 c (List.mem_cons_self c rest) hsc, if_pos rfl]; exact ih
      · rw [if_neg hsc]; exact ih

theorem validateCaveats_err {op scope : String} {l : List Caveat}
    (h : ∃ c ∈ l, c.kind = "operation" ∧ goContains c.value op = false) :
    ∃ e, validateCaveats op scope l = .error e := by
  induction l with
  | nil => simp at h
  | cons c rest ih =>
    obtain ⟨w, hw, hwk, hwc⟩ := h
    unfold validateCaveats
    by_cases hop : c.kind = "operation"
    · rw [if_pos hop]
      by_cases hpass : goContains c.value op = true
      · rw [hpass, if_pos rfl]
        refine ih ⟨w, ?_, hwk, hwc⟩
        rcases List.mem_cons.mp hw with h | h
        · exact absurd hpass (by rw [← h, hwc]; simp)
        · exact h
      · rw [Bool.not_eq_true] at hpass
        rw [hpass, if_neg (by simp)]
        exact ⟨_, rfl⟩
    · rw [if_neg hop]
      have hwrest : w ∈ rest := by
        rcases List.mem_cons.mp hw with h | h
        · exact absurd (h ▸ hwk) hop
        · exact h
      by_cases hsc : c.kind = "scope"
      · rw [if_pos hsc]
        by_cases hpre : goHasPre scope c.value = true
        · rw [hpre, if_pos rfl]; exact ih ⟨w, hwrest, hwk, hwc⟩
        · rw [Bool.not_eq_true] at hpre
          rw [hpre, if_neg (by simp)]
          exact ⟨_, rfl⟩
      · rw [if_neg hsc]; exact ih ⟨w, hwrest, hwk, hwc⟩

theorem validateCaveats_filter (op scope : String) (l : List Caveat) :
    validateCaveats op scope
      (l.filter fun c => c.kind == "operation" || c.kind == "scope") =
      validateCaveats op scope l := by
  induction l with
  | nil => rfl
  | cons c rest ih =>
    by_cases hcond : (c.kind == "operation" || c.kind == "scope") = true
    · have hf : (c :: rest).filter (fun c => c.kind == "operation" || c.kind == "scope")
          = c :: rest.filter (fun c => c.kind == "operation" || c.kind == "scope") := by
        simp only [List.filter_cons, hcond, if_pos]
      rw [hf]
      simp only [validateCaveats]
      by_cases hop : c.kind = "operation"
      · by_cases hct : goContains c.value op = true
        · simp [hop, hct, ih]
        · simp [hop, hct]
      · by_cases hsc : c.kind = "scope"
        · by_cases hpre : goHasPre scope c.value = true
          · simp [hop, hsc, hpre, ih]
          · simp [hop, hsc, hpre]
        · simp [hop, hsc, ih]
    · have hop : ¬ c.kind = "operation" := by
        intro h; exact hcond (by rw [h]; decide)
      have hsc : ¬ c.kind = "scope" := by
        intro h; exact hcond (by rw [h]; decide)
      have hf : (c :: rest).filter (fun c => c.kind == "operation" || c.kind == "scope")
          = rest.filter (fun c => c.kind == "operation" || c.kind == "scope") := by
        simp only [List.filter_cons]
        rw [if_neg hcond]
      rw [hf]
      conv_rhs => simp only [validateCaveats]
      rw [if_neg hop, if_neg hsc]
      exact ih

/-! ### Claim C6 -/

/-- C6: for every non-revoked, non-expired token, Attenuate yields a child
whose caveat list is the parent's followed by the additions (hence a
superset), whose bearer is the new delegate, whose granter is the parent's
bearer, and whose expiry does not exceed the parent's; consequently along
any chain of successful attenuations every descendant's caveat set contains
its ancestor's. -/
theorem C6_attenuation_monotonic :
    (∀ (d : DCT) (now : ℚ) (nb : String) (extra : List Caveat),
        d.Revoked = false → ¬ d.ExpiresAt < now →
        ∃ child, d.Attenuate now nb extra = .ok child ∧
          child.Caveats = d.Caveats ++ extra ∧
          (∀ c ∈ d.Caveats, c ∈ child.Caveats) ∧
          child.BearerID = nb ∧
          child.GranterID = d.BearerID ∧
          child.ExpiresAt ≤ d.ExpiresAt) ∧
    (∀ d₁ d₂ : DCT, AttChain d₁ d₂ → ∀ c ∈ d₁.Caveats, c ∈ d₂.Caveats) := by
  constructor
  · intro d now nb extra hrev hexp
    refine ⟨MintDCT now d.BearerID nb d.Resource (d.ExpiresAt - now)
      (d.Caveats ++ extra), ?_, rfl, ?_, rfl, rfl, ?_⟩
    · unfold DCT.Attenuate
      rw [hrev]
      rw [if_neg (by simp), if_neg hexp]
    · intro c hc
      exact List.mem_append_left _ hc
    · show now + (d.ExpiresAt - now) ≤ d.ExpiresAt
      linarith
  · intro d₁ d₂ h
    induction h with
    | refl => exact fun c hc => hc
    | tail _ hstep ih =>
      intro c hc
      obtain ⟨now, nb, extra, hok⟩ := hstep
      rw [attenuate_ok_eq hok]
      exact List.mem_append_left _ (ih c hc)

/-- Witness for C6 at a concrete live token. -/
theorem C6_attenuation_monotonic_witness :
    ∃ child, tokRead.Attenuate 1 "c-agent"
        [{ kind := "scope", key := "tables", value := "raw" }] = .ok child ∧
      child.Caveats = tokRead.Caveats ++
        [{ kind := "scope", key := "tables", value := "raw" }] ∧
      (∀ c ∈ tokRead.Caveats, c ∈ child.Caveats) ∧
      child.BearerID = "c-agent" ∧
      child.GranterID = tokRead.BearerID ∧
      child.ExpiresAt ≤ tokRead.ExpiresAt :=
  C6_attenuation_monotonic.1 tokRead 1 "c-agent" _ rfl (by norm_num [tokRead])

/-! ### Claim C9 -/

/-- C9: Attenuate on a revoked token, or on one whose expiry lies strictly
in the past, always fails with an error, for every new bearer and caveat
list. -/
theorem C9_attenuate_revoked_expired_fails :
    ∀ (d : DCT) (now : ℚ) (nb : String) (extra : List Caveat),
      (d.Revoked = true ∨ d.ExpiresAt < now) →
      ∃ e, d.Attenuate now nb extra = .error e := by
  intro d now nb extra h
  unfold DCT.Attenuate
  rcases h with h | h
  · rw [h]
    exact ⟨_, by rw [if_pos (by simp)]⟩
  · by_cases hr : d.Revoked = true
    · rw [hr]
      exact ⟨_, by rw [if_pos (by simp)]⟩
    · rw [Bool.not_eq_true] at hr
      rw [hr]
      exact ⟨_, by rw [if_neg (by simp), if_pos h]⟩

/-- Witness for C9 at a concrete revoked token and a concrete expired one. -/
theorem C9_attenuate_revoked_expired_fails_witness :
    (∃ e, tokRevoked.Attenuate 1 "c-agent" [] = .error e) ∧
    (∃ e, tokRead.Attenuate 11 "c-agent" [] = .error e) :=
  ⟨C9_attenuate_revoked_expired_fails tokRevoked 1 "c-agent" [] (Or.inl rfl),
   C9_attenuate_revoked_expired_fails tokRead 11 "c-agent" []
     (Or.inr (by norm_num [tokRead]))⟩

/-! ### Claim C8 -/

/-- C8: on a live token every caveat of kind "operation" valued "read"
denies operation "write" (an error results whatever the scope argument is)
and permits operation "read" once the token's scope caveats accept the
scope; a live token with no "operation" caveat permits any operation,
subject only to its other caveat kinds (its scope caveats). -/
theorem C8_read_caveat_semantics :
    (∀ (d : DCT) (now : ℚ) (scope : String),
        d.Revoked = false → ¬ d.ExpiresAt < now →
        (∃ c ∈ d.Caveats, c.kind = "operation") →
        (∀ c ∈ d.Caveats, c.kind = "operation" → c.value = "read") →
        (∃ e, d.ValidateAccess now "write" scope = .error e) ∧
          ((∀ c ∈ d.Caveats, c.kind = "scope" → goHasPre scope c.value = true) →
            d.ValidateAccess now "read" scope = .ok ())) ∧
    (∀ (d : DCT) (now : ℚ) (operation scope : String),
        d.Revoked = false → ¬ d.ExpiresAt < now →
        (∀ c ∈ d.Caveats, c.kind ≠ "operation") →
        (∀ c ∈ d.Caveats, c.kind = "scope" → goHasPre scope c.value = true) →
        d.ValidateAccess now operation scope = .ok ()) := by
  constructor
  · intro d now scope hrev hexp hex hall
    have hacc : ∀ op, d.ValidateAccess now op scope = validateCaveats op scope d.Caveats := by
      intro op
      unfold DCT.ValidateAccess
      rw [hrev, if_neg (by simp), if_neg hexp]
    constructor
    · rw [hacc]
      obtain ⟨c, hc, hck⟩ := hex
      refine validateCaveats_err ⟨c, hc, hck, ?_⟩
      rw [hall c hc hck]
      decide
    · intro hscope
      rw [hacc]
      refine validateCaveats_ok ?_ hscope
      intro c hc hck
      rw [hall c hc hck]
      decide
  · intro d now operation scope hrev hexp hnoop hscope
    unfold DCT.ValidateAccess
    rw [hrev, if_neg (by simp), if_neg hexp]
    refine validateCaveats_ok ?_ hscope
    intro c hc hck
    exact absurd hck (hnoop c hc)

/-- Witness for C8: the sample read-only token denies "write" and permits
"read"; the time/budget sample token (no operation caveat) permits "exec". -/
theorem C8_read_caveat_semantics_witness :
    ((∃ e, tokRead.ValidateAccess 1 "write" "tbl" = .error e) ∧
      tokRead.ValidateAccess 1 "read" "tbl" = .ok ()) ∧
    tokTimeBudget.ValidateAccess 1 "exec" "tbl" = .ok () :=
  ⟨⟨(C8_read_caveat_semantics.1 tokRead 1 "tbl" rfl (by norm_num [tokRead])
        (by decide) (by decide)).1,
    (C8_read_caveat_semantics.1 tokRead 1 "tbl" rfl (by norm_num [tokRead])
        (by decide) (by decide)).2 (by decide)⟩,
   C8_read_caveat_semantics.2 tokTimeBudget 1 "exec" "tbl" rfl
     (by norm_num [tokTimeBudget, tokRead]) (by decide) (by decide)⟩

/-! ### Claim C10 -/

/-- C10: ValidateAccess depends only on the caveats of kind "operation" and
"scope" — filtering the caveat list down to those kinds never changes the
result — and a live token all of whose caveats are of other kinds (such as
"time" or "budget") permits every operation and scope. -/
theorem C10_validate_ignores_other_kinds :
    (∀ (d : DCT) (now : ℚ) (operation scope : String),
        DCT.ValidateAccess
            { d with Caveats :=
                d.Caveats.filter (fun c => c.kind == "operation" || c.kind == "scope") }
            now operation scope =
          d.ValidateAccess now operation scope) ∧
    (∀ (d : DCT) (now : ℚ) (operation scope : String),
        d.Revoked = false → ¬ d.ExpiresAt < now →
        (∀ c ∈ d.Caveats, c.kind ≠ "operation" ∧ c.kind ≠ "scope") →
        d.ValidateAccess now operation scope = .ok ()) := by
  constructor
  · intro d now operation scope
    unfold DCT.ValidateAccess
    simp only []
    rw [validateCaveats_filter]
  · intro d now operation scope hrev hexp hother
    unfold DCT.ValidateAccess
    rw [hrev, if_neg (by simp), if_neg hexp]
    exact validateCaveats_ok
      (fun c hc hck => absurd hck (hother c hc).1)
      (fun c hc hck => absurd hck (hother c hc).2)

/-- Witness for C10 at the time/budget sample token. -/
theorem C10_validate_ignores_other_kinds_witness :
    tokTimeBudget.ValidateAccess 1 "write" "anywhere" = .ok () :=
  C10_validate_ignores_other_kinds.2 tokTimeBudget 1 "write" "anywhere" rfl
    (by norm_num [tokTimeBudget, tokRead]) (by decide)

/-! ### Reputation helper lemmas -/

theorem recencyWeight_pos {age : ℚ} (h : 0 ≤ age) : 0 < recencyWeight age := by
  unfold recencyWeight
  exact div_pos one_pos (by linarith)

theorem recordScore_bounds {r : ReputationRecord}
    (hq : 0 ≤ r.QualityScore ∧ r.QualityScore ≤ 1)
    (ht : 0 ≤ r.TimelinessScore ∧ r.TimelinessScore ≤ 1)
    (hc : 0 ≤ r.CostAdherence ∧ r.CostAdherence ≤ 1)
    (hs : 0 ≤ r.SafetyCompliance ∧ r.SafetyCompliance ≤ 1) :
    0 ≤ recordScore r ∧ recordScore r ≤ 1 := by
  unfold recordScore
  constructor <;> linarith

theorem trustFoldAux_bounds (now : ℚ) :
    ∀ (records : List ReputationRecord) (acc : ℚ × ℚ),
      (∀ r ∈ records, r.RecordedAt ≤ now ∧
        (0 ≤ r.QualityScore ∧ r.QualityScore ≤ 1) ∧
        (0 ≤ r.TimelinessScore ∧ r.TimelinessScore ≤ 1) ∧
        (0 ≤ r.CostAdherence ∧ r.CostAdherence ≤ 1) ∧
        (0 ≤ r.SafetyCompliance ∧ r.SafetyCompliance ≤ 1)) →
      0 ≤ acc.1 → acc.1 ≤ acc.2 →
      0 ≤ (records.foldl
          (fun acc rec =>
            (acc.1 + recordScore rec * recencyWeight (now - rec.RecordedAt),
             acc.2 + recencyWeight (now - rec.RecordedAt))) acc).1 ∧
        (records.foldl
          (fun acc rec =>
            (acc.1 + recordScore rec * recencyWeight (now - rec.RecordedAt),
             acc.2 + recencyWeight (now - rec.RecordedAt))) acc).1 ≤
        (records.foldl
          (fun acc rec =>
            (acc.1 + recordScore rec * recencyWeight (now - rec.RecordedAt),
             acc.2 + recencyWeight (now - rec.RecordedAt))) acc).2 := by
  intro records
  induction records with
  | nil => intro acc _ h1 h2; exact ⟨h1, h2⟩
  | cons r rest ih =>
    intro acc hmem h1 h2
    rw [List.foldl_cons]
    have hr := hmem r (List.mem_cons_self r rest)
    have hw : 0 < recencyWeight (now - r.RecordedAt) :=
      recencyWeight_pos (by linarith [hr.1])
    have hsc := recordScore_bounds hr.2.1 hr.2.2.1 hr.2.2.2.1 hr.2.2.2.2
    have hmul : recordScore r * recencyWeight (now - r.RecordedAt) ≤
        recencyWeight (now - r.RecordedAt) := by
      nlinarith [hsc.2, hw.le]
    refine ih _ (fun x hx => hmem x (List.mem_cons_of_mem r hx)) ?_ ?_
    · have : 0 ≤ recordScore r * recencyWeight (now - r.RecordedAt) :=
        mul_nonneg hsc.1 hw.le
      show 0 ≤ acc.1 + recordScore r * recencyWeight (now - r.RecordedAt)
      linarith
    · show acc.1 + recordScore r * recencyWeight (now - r.RecordedAt) ≤
        acc.2 + recencyWeight (now - r.RecordedAt)
      linarith

/-! ### Claim C7 -/

/-- C7: with zero records the trust score is exactly 0.5; for every history
whose records were recorded at or before the query instant and whose four
component scores each lie in the unit interval, the computed trust score
lies in the unit interval; and the decay weight of a 0-day-old record is
strictly larger than the weight of a 30-day-old one. -/
theorem C7_trust_score_bounds :
    (∀ now : ℚ, ComputeTrustScore now [] = 1/2) ∧
    (∀ (now : ℚ) (records : List ReputationRecord),
        (∀ r ∈ records, r.RecordedAt ≤ now ∧
          (0 ≤ r.QualityScore ∧ r.QualityScore ≤ 1) ∧
          (0 ≤ r.TimelinessScore ∧ r.TimelinessScore ≤ 1) ∧
          (0 ≤ r.CostAdherence ∧ r.CostAdherence ≤ 1) ∧
          (0 ≤ r.SafetyCompliance ∧ r.SafetyCompliance ≤ 1)) →
        0 ≤ ComputeTrustScore now records ∧ ComputeTrustScore now records ≤ 1) ∧
    recencyWeight 0 > recencyWeight 30 := by
  refine ⟨fun now => rfl, ?_, by norm_num [recencyWeight]⟩
  intro now records hmem
  unfold ComputeTrustScore
  by_cases he : records.isEmpty
  · rw [if_pos he]; norm_num
  · rw [if_neg he]
    have hb := trustFoldAux_bounds now records (0, 0) hmem (le_refl 0) (le_refl 0)
    rw [show (records.foldl
        (fun acc rec =>
          (acc.1 + recordScore rec * recencyWeight (now - rec.RecordedAt),
           acc.2 + recencyWeight (now - rec.RecordedAt))) ((0 : ℚ), (0 : ℚ))) =
        trustFold now records from rfl] at hb
    dsimp only
    by_cases hz : (trustFold now records).2 = 0
    · rw [if_pos hz]; norm_num
    · rw [if_neg hz]
      have hpos : 0 < (trustFold now records).2 :=
        lt_of_le_of_ne (le_trans hb.1 hb.2) (Ne.symm hz)
      exact ⟨div_nonneg hb.1 hpos.le, (div_le_one hpos).mpr hb.2⟩

/-- Witness for C7: the empty history, a singleton history with component
scores one half recorded at day 0 and queried at day 30, and the weight
comparison. -/
theorem C7_trust_score_bounds_witness :
    ComputeTrustScore 30 [] = 1/2 ∧
    (0 ≤ ComputeTrustScore 30 [recSample] ∧ ComputeTrustScore 30 [recSample] ≤ 1) ∧
    recencyWeight 0 > recencyWeight 30 :=
  ⟨C7_trust_score_bounds.1 30,
   C7_trust_score_bounds.2.1 30 [recSample] (by decide),
   C7_trust_score_bounds.2.2⟩

/-! ### Claim C5 -/

/-- C5: for an irreversible task and an urgent trigger — whatever its type —
the adaptive response sets the task status to Cancelled and stops: the
engine state is exactly the cancelled-task update, the reputation ledger
and bidding channels are untouched, and the stored task keeps its delegatee
(no re-delegation of any kind). -/
theorem C5_irreversible_urgent_cancels :
    ∀ (now : ℚ) (task : TaskSpec) (trigger : AdaptiveTrigger) (st : EngineSt),
      task.Reversible = false → trigger.Urgent = true →
      evaluateAndRespond now task trigger st =
        UpdateTask { task with Status := .cancelled } st ∧
      (evaluateAndRespond now task trigger st).reputation = st.reputation ∧
      (evaluateAndRespond now task trigger st).biddingChannels = st.biddingChannels ∧
      GetTask (evaluateAndRespond now task trigger st) task.TaskID =
        some { task with Status := .cancelled } := by
  intro now task trigger st hrev hurg
  have hmain : evaluateAndRespond now task trigger st =
      UpdateTask { task with Status := .cancelled } st := by
    unfold evaluateAndRespond
    rw [if_pos ⟨hrev, hurg⟩]
  refine ⟨hmain, by rw [hmain]; rfl, by rw [hmain]; rfl, ?_⟩
  rw [hmain]
  unfold GetTask UpdateTask storePut storeGet
  simp

/-- Witness for C5 at the irreversible sample task and the urgent sample
trigger. -/
theorem C5_irreversible_urgent_cancels_witness :
    evaluateAndRespond 1 taskIrrev trigUrgent st0 =
      UpdateTask { taskIrrev with Status := .cancelled } st0 ∧
    (evaluateAndRespond 1 taskIrrev trigUrgent st0).reputation = st0.reputation ∧
    (evaluateAndRespond 1 taskIrrev trigUrgent st0).biddingChannels =
      st0.biddingChannels ∧
    GetTask (evaluateAndRespond 1 taskIrrev trigUrgent st0) taskIrrev.TaskID =
      some { taskIrrev with Status := .cancelled } :=
  C5_irreversible_urgent_cancels 1 taskIrrev trigUrgent st0 rfl rfl

/-! ### Decomposition helper lemmas -/

theorem decomposeLoop_error_prefix (now : ℚ) (parentID delegatorID : String) :
    ∀ (subs : List TaskSpec) (ids : List String) (st : EngineSt),
      (∃ s ∈ subs, childRejected s) →
      (∃ e, (decomposeLoop now parentID delegatorID subs ids st).1 = .error e) ∧
      (decomposeLoop now parentID delegatorID subs ids st).2 =
        (subs.takeWhile (fun s => decide (¬ childRejected s))).foldl
          (fun acc s => CreateTask now (reparent parentID delegatorID s) acc) st := by
  intro subs
  induction subs with
  | nil => intro ids st h; simp at h
  | cons s rest ih =>
    intro ids st h
    by_cases hs : childRejected s
    · have htw : (s :: rest).takeWhile (fun s => decide (¬ childRejected s)) = [] := by
        simp [List.takeWhile_cons, hs]
      rw [htw]
      unfold decomposeLoop
      dsimp only
      rw [if_pos (by exact hs)]
      exact ⟨⟨_, rfl⟩, rfl⟩
    · have htw : (s :: rest).takeWhile (fun s => decide (¬ childRejected s)) =
          s :: rest.takeWhile (fun s => decide (¬ childRejected s)) := by
        simp [List.takeWhile_cons, hs]
      rw [htw, List.foldl_cons]
      have hrest : ∃ x ∈ rest, childRejected x := by
        obtain ⟨w, hw, hwr⟩ := h
        rcases List.mem_cons.mp hw with hweq | hwrest
        · exact absurd (hweq ▸ hwr) hs
        · exact ⟨w, hwrest, hwr⟩
      have hnext := ih (ids ++ [(reparent parentID delegatorID s).TaskID])
        (CreateTask now (reparent parentID delegatorID s) st) hrest
      unfold decomposeLoop
      dsimp only
      rw [if_neg (by exact hs)]
      exact hnext

theorem getTask_foldl_createTask (now : ℚ) (parentID delegatorID pid : String) :
    ∀ (l : List TaskSpec) (st : EngineSt),
      pid ∉ l.map TaskSpec.TaskID →
      GetTask
        (l.foldl
          (fun acc s => CreateTask now (reparent parentID delegatorID s) acc) st)
        pid = GetTask st pid := by
  intro l
  induction l with
  | nil => intro st _; rfl
  | cons s rest ih =>
    intro st hnot
    rw [List.foldl_cons]
    have hne : pid ≠ s.TaskID := by
      intro hEq
      exact hnot (by simp [hEq])
    rw [ih _ (fun hmem => hnot (by simp at hmem ⊢; exact Or.inr hmem))]
    unfold GetTask CreateTask storePut storeGet
    dsimp only
    rw [List.find?_cons_of_neg _ (by simpa [reparent] using fun hEq => hne hEq.symm)]

/-! ### Claim C1 -/

/-- C1 counterexample: decomposing the sample parent into a valid first
child and an invalid second child (verifiability 0.1, not a leaf) returns
an error, yet the first child HAS been persisted — no rollback happens, so
the operation is not atomic as claimed. -/
theorem C1_partial_persistence_counterexample :
    (DecomposeTask 0 st0 "p" [subGood, subBad]).1 =
      .error "sub-task s2 has low verifiability" ∧
    GetTask (DecomposeTask 0 st0 "p" [subGood, subBad]).2 "s1" =
      some { reparent "p" "d" subGood with CreatedAt := 0, Status := .pending } := by
  decide

/-- C1 (amended): the DecomposeTask loop validates and persists children one
at a time, in submission order.  If some child is rejected (verifiability
below 0.3 and not a leaf), the call returns an error, nothing from the first
rejected child onward is created, and the parent record is unchanged — but
every child before the first rejected one has already been persisted; the
final store is the initial store plus exactly that reparented prefix. -/
theorem C1_decompose_prefix_persistence :
    ∀ (now : ℚ) (st : EngineSt) (parentID : String) (parent : TaskSpec)
      (subs : List TaskSpec),
      GetTask st parentID = some parent →
      (∃ s ∈ subs, childRejected s) →
      (∃ e, (DecomposeTask now st parentID subs).1 = .error e) ∧
      (DecomposeTask now st parentID subs).2 =
        (subs.takeWhile (fun s => decide (¬ childRejected s))).foldl
          (fun acc s =>
            CreateTask now (reparent parentID parent.DelegatorID s) acc) st ∧
      (parentID ∉ (subs.takeWhile
          (fun s => decide (¬ childRejected s))).map TaskSpec.TaskID →
        GetTask (DecomposeTask now st parentID subs).2 parentID = some parent) := by
  intro now st parentID parent subs hpar hbad
  obtain ⟨⟨e, he⟩, hst⟩ :=
    decomposeLoop_error_prefix now parentID parent.DelegatorID subs [] st hbad
  have hD : DecomposeTask now st parentID subs =
      (.error e, (decomposeLoop now parentID parent.DelegatorID subs [] st).2) := by
    unfold DecomposeTask
    rw [hpar]
    dsimp only
    cases hL : decomposeLoop now parentID parent.DelegatorID subs [] st with
    | mk res st2 =>
      rw [hL] at he
      simp only at he
      rw [he]
  refine ⟨⟨e, by rw [hD]⟩, by rw [hD]; exact hst, ?_⟩
  intro hnot
  rw [hD]
  show GetTask (decomposeLoop now parentID parent.DelegatorID subs [] st).2 parentID =
    some parent
  rw [hst]
  rw [getTask_foldl_createTask now parentID parent.DelegatorID parentID _ st hnot]
  exact hpar

/-- Witness for C1 (amended) at the sample parent with a good child followed
by a bad one: the call errors and the parent record is untouched. -/
theorem C1_decompose_prefix_persistence_witness :
    (∃ e, (DecomposeTask 0 st0 "p" [subGood, subBad]).1 = .error e) ∧
    GetTask (DecomposeTask 0 st0 "p" [subGood, subBad]).2 "p" = some taskP :=
  have h := C1_decompose_prefix_persistence 0 st0 "p" taskP [subGood, subBad]
    (by decide) (by decide)
  ⟨h.1, h.2.2 (by decide)⟩

/-! ### Sort membership lemmas

Every mutation the embedded sort performs is an `lswap`, so each routine
only permutes its input: every element of the output is an element of the
input.  These lemmas carry that fact through each routine of the pdqsort
transcription. -/

section GoSortLemmas

variable {α : Type} [Inhabited α] (less : α → α → Bool)

theorem nthd_mem {xs : List α} {i : Nat} (h : i < xs.length) : nthd xs i ∈ xs := by
  unfold nthd
  rw [List.getD_eq_getElem _ _ h]
  exact List.getElem_mem h

theorem lswap_mem {xs : List α} {i j : Nat} {x : α} (h : x ∈ lswap xs i j) :
    x ∈ xs := by
  unfold lswap at h
  by_cases hb : i < xs.length ∧ j < xs.length
  · rw [if_pos hb] at h
    rcases List.mem_or_eq_of_mem_set h with h1 | h1
    · rcases List.mem_or_eq_of_mem_set h1 with h2 | h2
      · exact h2
      · exact h2 ▸ nthd_mem hb.2
    · exact h1 ▸ nthd_mem hb.1
  · rwa [if_neg hb] at h

theorem insInner_mem :
    ∀ (fuel : Nat) (xs : List α) (j a : Nat) (x : α),
      x ∈ insInner less fuel xs j a → x ∈ xs := by
  intro fuel
  induction fuel with
  | zero => intro xs j a x hx; exact hx
  | succ n ih =>
    intro xs j a x hx
    unfold insInner at hx
    split at hx
    · exact lswap_mem (ih _ _ _ _ hx)
    · exact hx

theorem insOuter_mem :
    ∀ (fuel : Nat) (xs : List α) (i a b : Nat) (x : α),
      x ∈ insOuter less fuel xs i a b → x ∈ xs := by
  intro fuel
  induction fuel with
  | zero => intro xs i a b x hx; exact hx
  | succ n ih =>
    intro xs i a b x hx
    unfold insOuter at hx
    split at hx
    · exact insInner_mem less _ _ _ _ _ (ih _ _ _ _ _ hx)
    · exact hx

theorem insertionSort_mem {xs : List α} {a b : Nat} {x : α}
    (h : x ∈ insertionSort less xs a b) : x ∈ xs :=
  insOuter_mem less _ _ _ _ _ _ h

theorem siftDown_mem :
    ∀ (fuel : Nat) (xs : List α) (root hi first : Nat) (x : α),
      x ∈ siftDown less fuel xs root hi first → x ∈ xs := by
  intro fuel
  induction fuel with
  | zero => intro xs root hi first x hx; exact hx
  | succ n ih =>
    intro xs root hi first x hx
    unfold siftDown at hx
    dsimp only at hx
    split at hx
    · exact hx
    · split at hx
      · split at hx
        · exact hx
        · exact lswap_mem (ih _ _ _ _ _ hx)
      · split at hx
        · exact hx
        · exact lswap_mem (ih _ _ _ _ _ hx)

theorem heapBuild_mem :
    ∀ (fuel : Nat) (xs : List α) (i hi first : Nat) (x : α),
      x ∈ heapBuild less fuel xs i hi first → x ∈ xs := by
  intro fuel
  induction fuel with
  | zero => intro xs i hi first x hx; exact hx
  | succ n ih =>
    intro xs i hi first x hx
    unfold heapBuild at hx
    dsimp only at hx
    split at hx
    · exact siftDown_mem less _ _ _ _ _ _ hx
    · exact siftDown_mem less _ _ _ _ _ _ (ih _ _ _ _ _ hx)

theorem heapPop_mem :
    ∀ (fuel : Nat) (xs : List α) (i first : Nat) (x : α),
      x ∈ heapPop less fuel xs i first → x ∈ xs := by
  intro fuel
  induction fuel with
  | zero => intro xs i first x hx; exact hx
  | succ n ih =>
    intro xs i first x hx
    unfold heapPop at hx
    dsimp only at hx
    split at hx
    · exact lswap_mem (siftDown_mem less _ _ _ _ _ _ hx)
    · exact lswap_mem (siftDown_mem less _ _ _ _ _ _ (ih _ _ _ _ hx))

theorem heapSort_mem {xs : List α} {a b : Nat} {x : α}
    (h : x ∈ heapSort less xs a b) : x ∈ xs := by
  unfold heapSort at h
  dsimp only at h
  split at h
  · exact heapBuild_mem less _ _ _ _ _ _ h
  · exact heapBuild_mem less _ _ _ _ _ _ (heapPop_mem less _ _ _ _ _ h)

theorem revRange_mem :
    ∀ (fuel : Nat) (xs : List α) (i j : Nat) (x : α),
      x ∈ revRange fuel xs i j → x ∈ xs := by
  intro fuel
  induction fuel with
  | zero => intro xs i j x hx; exact hx
  | succ n ih =>
    intro xs i j x hx
    unfold revRange at hx
    split at hx
    · exact lswap_mem (ih _ _ _ _ hx)
    · exact hx

theorem pisShiftL_mem :
    ∀ (fuel : Nat) (xs : List α) (j : Nat) (x : α),
      x ∈ pisShiftL less fuel xs j → x ∈ xs := by
  intro fuel
  induction fuel with
  | zero => intro xs j x hx; exact hx
  | succ n ih =>
    intro xs j x hx
    unfold pisShiftL at hx
    split at hx
    · split at hx
      · exact lswap_mem (ih _ _ _ hx)
      · exact hx
    · exact hx

theorem pisShiftR_mem :
    ∀ (fuel : Nat) (xs : List α) (j b : Nat) (x : α),
      x ∈ pisShiftR less fuel xs j b → x ∈ xs := by
  intro fuel
  induction fuel with
  | zero => intro xs j b x hx; exact hx
  | succ n ih =>
    intro xs j b x hx
    unfold pisShiftR at hx
    split at hx
    · split at hx
      · exact lswap_mem (ih _ _ _ _ hx)
      · exact hx
    · exact hx

theorem pisSteps_mem :
    ∀ (steps : Nat) (xs : List α) (i a b : Nat) (x : α),
      x ∈ (pisSteps less steps xs i a b).1 → x ∈ xs := by
  intro steps
  induction steps with
  | zero => intro xs i a b x hx; exact hx
  | succ n ih =>
    intro xs i a b x hx
    unfold pisSteps at hx
    dsimp only at hx
    split at hx
    · exact hx
    · split at hx
      · exact hx
      · have hx1 := ih _ _ _ _ _ hx
        split at hx1
        · have hx2 := pisShiftR_mem less _ _ _ _ _ hx1
          split at hx2
          · exact lswap_mem (pisShiftL_mem less _ _ _ _ hx2)
          · exact lswap_mem hx2
        · split at hx1
          · exact lswap_mem (pisShiftL_mem less _ _ _ _ hx1)
          · exact lswap_mem hx1

theorem partialInsertionSort_mem {xs : List α} {a b : Nat} {x : α}
    (h : x ∈ (partialInsertionSort less xs a b).1) : x ∈ xs :=
  pisSteps_mem less _ _ _ _ _ _ h

theorem breakPatterns_mem {xs : List α} {a b : Nat} {x : α}
    (h : x ∈ breakPatterns xs a b) : x ∈ xs := by
  unfold breakPatterns at h
  dsimp only at h
  split at h
  · exact lswap_mem (lswap_mem (lswap_mem h))
  · exact h

theorem partMain_mem :
    ∀ (fuel : Nat) (xs : List α) (i j a : Nat) (x : α),
      x ∈ (partMain less fuel xs i j a).1 → x ∈ xs := by
  intro fuel
  induction fuel with
  | zero => intro xs i j a x hx; exact hx
  | succ n ih =>
    intro xs i j a x hx
    unfold partMain at hx
    dsimp only at hx
    split at hx
    · exact hx
    · exact lswap_mem (ih _ _ _ _ _ hx)

theorem partition_mem {xs : List α} {a b pivot : Nat} {x : α}
    (h : x ∈ (partition less xs a b pivot).1) : x ∈ xs := by
  unfold partition at h
  dsimp only at h
  split at h
  · exact lswap_mem (lswap_mem h)
  · exact lswap_mem (lswap_mem (partMain_mem less _ _ _ _ _ _ (lswap_mem h)))

theorem partEqMain_mem :
    ∀ (fuel : Nat) (xs : List α) (i j a : Nat) (x : α),
      x ∈ (partEqMain less fuel xs i j a).1 → x ∈ xs := by
  intro fuel
  induction fuel with
  | zero => intro xs i j a x hx; exact hx
  | succ n ih =>
    intro xs i j a x hx
    unfold partEqMain at hx
    dsimp only at hx
    split at hx
    · exact hx
    · exact lswap_mem (ih _ _ _ _ _ hx)

theorem partitionEqual_mem {xs : List α} {a b pivot : Nat} {x : α}
    (h : x ∈ (partitionEqual less xs a b pivot).1) : x ∈ xs := by
  unfold partitionEqual at h
  exact lswap_mem (partEqMain_mem less _ _ _ _ _ _ h)

theorem pdqBreak_mem {wb : Bool} {xs : List α} {a b : Nat} {x : α}
    (h : x ∈ pdqBreak wb xs a b) : x ∈ xs := by
  unfold pdqBreak at h
  split at h
  · exact breakPatterns_mem h
  · exact h

theorem pdqPivot_mem {xs : List α} {a b : Nat} {x : α}
    (h : x ∈ (pdqPivot less xs a b).1) : x ∈ xs := by
  unfold pdqPivot at h
  dsimp only at h
  split at h
  · exact revRange_mem _ _ _ _ _ h
  · exact h

theorem pdqMaybeSorted_mem {wb wp : Bool} {hint : SortedHint} {xs : List α}
    {a b : Nat} {x : α} (h : x ∈ (pdqMaybeSorted less wb wp hint xs a b).1) :
    x ∈ xs := by
  unfold pdqMaybeSorted at h
  split at h
  · exact partialInsertionSort_mem less h
  · exact h

theorem pdqsortLoop_mem :
    ∀ (fuel : Nat) (xs : List α) (a b limit : Nat) (wb wp : Bool) (x : α),
      x ∈ pdqsortLoop less fuel xs a b limit wb wp → x ∈ xs := by
  intro fuel
  induction fuel with
  | zero => intro xs a b limit wb wp x hx; exact hx
  | succ n ih =>
    intro xs a b limit wb wp x hx
    unfold pdqsortLoop at hx
    dsimp only at hx
    have step :
        ∀ y : α,
          y ∈ (pdqMaybeSorted less wb wp
              (pdqPivot less (pdqBreak wb xs a b) a b).2.2
              (pdqPivot less (pdqBreak wb xs a b) a b).1 a b).1 → y ∈ xs :=
      fun y hy => pdqBreak_mem (pdqPivot_mem less (pdqMaybeSorted_mem less hy))
    split at hx
    · exact insertionSort_mem less hx
    · split at hx
      · exact heapSort_mem less hx
      · split at hx
        · exact step x hx
        · split at hx
          · exact step x (partitionEqual_mem less (ih _ _ _ _ _ _ _ hx))
          · split at hx
            · exact step x
                (partition_mem less (ih _ _ _ _ _ _ _ (ih _ _ _ _ _ _ _ hx)))
            · exact step x
                (partition_mem less (ih _ _ _ _ _ _ _ (ih _ _ _ _ _ _ _ hx)))

theorem sortSlice_mem {xs : List α} {x : α} (h : x ∈ sortSlice less xs) :
    x ∈ xs :=
  pdqsortLoop_mem less _ _ _ _ _ _ _ _ h

end GoSortLemmas

/-! ### Claim C4 -/

/-- C4 counterexample: with threshold 3 the breaker trips on the third
failure and IsAllowed is false before the cooldown, as claimed — but once
the cooldown has elapsed it is NOT the case that exactly one IsAllowed call
returns true: the first call returns true and moves the state to half-open,
and the very next call returns true again (the half-open state allows every
probe). -/
theorem C4_half_open_probe_counterexample :
    (cbTripped.IsAllowed 0).2 = false ∧
    (cbTripped.IsAllowed 31).2 = true ∧
    (cbTripped.IsAllowed 31).1.State = CBState.halfOpen ∧
    ((cbTripped.IsAllowed 31).1.IsAllowed 31).2 = true := by
  decide

/-- C4 (amended): with threshold 3 the third consecutive RecordFailure trips
the breaker (IsAllowed is false while the cooldown has not elapsed); once
the cooldown has elapsed the first IsAllowed call returns true and moves the
state to half-open; in half-open every IsAllowed call returns true and
changes nothing (the code does not limit the probe to a single call); and no
operation other than RecordSuccess ever returns the breaker to the closed
state. -/
theorem C4_breaker_behavior :
    (∀ (agentID : String) (floor : ℚ) (t0 t1 t2 t : ℚ),
        (((((NewCircuitBreaker agentID 3 floor).RecordFailure t0).1.RecordFailure
            t1).1.RecordFailure t2)).2 = true ∧
        (((((NewCircuitBreaker agentID 3 floor).RecordFailure t0).1.RecordFailure
            t1).1.RecordFailure t2)).1.State = CBState.opened ∧
        (((((NewCircuitBreaker agentID 3 floor).RecordFailure t0).1.RecordFailure
            t1).1.RecordFailure t2)).1.LastTripped = t2 ∧
        (t - t2 ≤ 30 →
          ((((((NewCircuitBreaker agentID 3 floor).RecordFailure t0).1.RecordFailure
              t1).1.RecordFailure t2)).1.IsAllowed t).2 = false)) ∧
    (∀ (cb : CircuitBreaker) (t : ℚ),
        cb.State = CBState.opened → t - cb.LastTripped > cb.CooldownPeriod →
        (cb.IsAllowed t).2 = true ∧ (cb.IsAllowed t).1.State = CBState.halfOpen) ∧
    (∀ (cb : CircuitBreaker) (t : ℚ),
        cb.State = CBState.halfOpen → cb.IsAllowed t = (cb, true)) ∧
    (∀ (cb : CircuitBreaker) (op : CBOp),
        cb.State ≠ CBState.closed → op ≠ CBOp.success →
        (cbStep cb op).State ≠ CBState.closed) := by
  refine ⟨?_, ?_, ?_, ?_⟩
  · intro agentID floor t0 t1 t2 t
    have key : ((((NewCircuitBreaker agentID 3 floor).RecordFailure
        t0).1.RecordFailure t1).1.RecordFailure t2) =
        ({ AgentID := agentID, FailureCount := 3, FailureThreshold := 3,
           TrustFloor := floor, CooldownPeriod := 30, State := CBState.opened,
           LastTripped := t2 }, true) := by
      norm_num [NewCircuitBreaker, CircuitBreaker.RecordFailure]
    rw [key]
    refine ⟨by trivial, by trivial, by trivial, ?_⟩
    intro ht
    unfold CircuitBreaker.IsAllowed
    dsimp only
    rw [if_neg (by simp only [gt_iff_lt, not_lt]; linarith)]
  · intro cb t hst hcool
    unfold CircuitBreaker.IsAllowed
    rw [hst]
    simp only [if_pos hcool]
    exact ⟨by trivial, by trivial⟩
  · intro cb t hst
    unfold CircuitBreaker.IsAllowed
    rw [hst]
  · intro cb op hst hop
    cases op with
    | fail now =>
      show ((cb.RecordFailure now).1).State ≠ CBState.closed
      unfold CircuitBreaker.RecordFailure
      dsimp only
      split
      · simp
      · simpa using hst
    | success => exact absurd rfl hop
    | trustDrop now trust =>
      show ((cb.CheckTrustDrop now trust).1).State ≠ CBState.closed
      unfold CircuitBreaker.CheckTrustDrop
      split
      · simp
      · simpa using hst
    | allowed now =>
      show ((cb.IsAllowed now).1).State ≠ CBState.closed
      unfold CircuitBreaker.IsAllowed
      cases hs : cb.State with
      | closed => exact absurd hs hst
      | opened =>
        dsimp only
        split
        · simp
        · simp [hs]
      | halfOpen =>
        dsimp only
        simp [hs]

/-! ### Claim C2 -/

set_option maxRecDepth 8000 in
/-- C2: RankBids sorts with Go's `sort.Slice`, whose pdqsort is not stable.
Running the embedded RankBids on thirteen bids — seven of them tied at
total score 1/2, submitted in the order T0, T2, T4, T6, T8, T10, T12 —
returns the tied bids in the order T6, T4, T0, T2, T8, T10, T12: the output
is sorted descending by score, but equal-score bids do NOT keep their
submission order, contradicting the specified stable ordering (Go provides
sort.SliceStable for that; the code calls sort.Slice). -/
theorem C2_rankBids_tie_reorder :
    c2Bids.map Bid.BidID =
      ["T0", "b9", "T2", "b8", "T4", "b7", "T6", "b6", "T8", "b4", "T10",
       "b3", "T12"] ∧
    (RankBids c2Bids wConfOnly [] [] []).map
        (fun sb => (sb.Bid.BidID, sb.Score)) =
      [("b9", 9/10), ("b8", 4/5), ("b7", 7/10), ("b6", 3/5), ("T6", 1/2),
       ("T4", 1/2), ("T0", 1/2), ("T2", 1/2), ("T8", 1/2), ("T10", 1/2),
       ("T12", 1/2), ("b4", 2/5), ("b3", 3/10)] := by
  constructor
  · decide
  · have h1 : scoreBids c2Bids wConfOnly [] [] [] = c2Scored := by decide
    unfold RankBids
    rw [if_neg (by decide : ¬ c2Bids.length = 0)]
    rw [h1]
    decide

/-! ### Claim C3 -/

set_option maxRecDepth 8000 in
/-- C3 counterexample: a single bid by an agent absent from the supplied
trust map is ranked with TrustScore 0 (the Go map zero value), and with
weights isolating the trust dimension its weighted total is 0 as well — not
the claimed neutral default 0.5. -/
theorem C3_unknown_trust_counterexample :
    (RankBids [mkBid "b1" (9/10)] wTrustOnly [] [] []).map
        ScoredBid.TrustScore = [0] ∧
    (RankBids [mkBid "b1" (9/10)] wTrustOnly [] [] []).map
        ScoredBid.Score = [0] ∧
    ((0 : ℚ) ≠ 1/2) := by
  decide

theorem scoreBids_trust (bids : List Bid) (weights : OptimizationWeights)
    (agentTrust : List (String × ℚ)) (requiredCaps : List String)
    (agentCaps : List (String × List String)) :
    ∀ sb ∈ scoreBids bids weights agentTrust requiredCaps agentCaps,
      sb.TrustScore = lookupTrust agentTrust sb.Bid.AgentID := by
  intro sb hsb
  unfold scoreBids at hsb
  dsimp only at hsb
  rcases List.mem_map.mp hsb with ⟨bid, _, rfl⟩
  rfl

/-- C3 (amended): in RankBids, a bid whose agent has no entry in the
supplied trust map is scored with TrustScore 0 — the Go map zero value, not
the 0.5 neutral default (that default lives upstream, in ComputeTrustScore
and RegisterAgent). -/
theorem C3_unknown_agent_trust_zero :
    ∀ (bids : List Bid) (weights : OptimizationWeights)
      (agentTrust : List (String × ℚ)) (requiredCaps : List String)
      (agentCaps : List (String × List String)),
      ∀ sb ∈ RankBids bids weights agentTrust requiredCaps agentCaps,
        agentTrust.find? (fun kv => kv.1 == sb.Bid.AgentID) = none →
        sb.TrustScore = 0 := by
  intro bids weights agentTrust requiredCaps agentCaps sb hsb hnone
  unfold RankBids at hsb
  split at hsb
  · simp at hsb
  · have hmem := sortSlice_mem _ hsb
    rw [scoreBids_trust bids weights agentTrust requiredCaps agentCaps sb hmem]
    unfold lookupTrust
    rw [hnone]
    rfl

set_option maxRecDepth 8000 in
/-- Witness for C3 (amended) at the single unknown-agent bid. -/
theorem C3_unknown_agent_trust_zero_witness :
    ((RankBids [mkBid "b1" (9/10)] wTrustOnly [] [] []).getD 0
        default).TrustScore = 0 :=
  C3_unknown_agent_trust_zero [mkBid "b1" (9/10)] wTrustOnly [] [] []
    ((RankBids [mkBid "b1" (9/10)] wTrustOnly [] [] []).getD 0 default)
    (by decide) rfl

/-- Witness for C4 (amended) at concrete times: failures at 0, 1, 2; the
blocked check at time 20 (within cooldown of the trip at 2); the half-open
transition at 33; the repeated probe; and a tripped breaker staying open
under a further failure. -/
theorem C4_breaker_behavior_witness :
    ((((NewCircuitBreaker "a" 3 0).RecordFailure 0).1.RecordFailure
        1).1.RecordFailure 2).2 = true ∧
    (((((NewCircuitBreaker "a" 3 0).RecordFailure 0).1.RecordFailure
        1).1.RecordFailure 2).1.IsAllowed 20).2 = false ∧
    ((cbTripped.IsAllowed 40).2 = true ∧
      (cbTripped.IsAllowed 40).1.State = CBState.halfOpen) ∧
    ((cbTripped.IsAllowed 40).1.IsAllowed 41 = ((cbTripped.IsAllowed 40).1, true)) ∧
    ((cbStep cbTripped (CBOp.fail 50)).State ≠ CBState.closed) :=
  ⟨(C4_breaker_behavior.1 "a" 0 0 1 2 20).1,
   (C4_breaker_behavior.1 "a" 0 0 1 2 20).2.2.2 (by norm_num),
   C4_breaker_behavior.2.1 cbTripped 40 (by decide) (by decide),
   C4_breaker_behavior.2.2.1 ((cbTripped.IsAllowed 40).1) 41 (by decide),
   C4_breaker_behavior.2.2.2 cbTripped (CBOp.fail 50) (by decide)
     (by intro h; cases h)⟩

end Deleg
